import Mathlib

set_option maxRecDepth 100000

/-!
Verification of the electric-mpg-app repository.

Part 1 embeds the calculator core of `src/App.tsx` (the `parsePositiveNumber`
helper, the `results` memo and the `comparison` memo) over the rationals:
the JavaScript floating-point arithmetic is idealised as exact rational
arithmetic, and the JavaScript `Number(value)` string coercion is modelled
by `jsNumber` (ECMAScript StringNumericLiteral grammar: whitespace trimming,
signed decimal literals with optional fraction and exponent, `Infinity`,
and the `0x`/`0o`/`0b` radix forms; anything else is NaN).

Part 2 embeds the Gradle-patching script `android-create-signed.cjs` as a
pure transformation on file contents (lists of characters), including the
regex anchors `buildTypes\s*{` and `getByName("release")\s*{` modelled by
`findLWB` (leftmost literal-then-whitespace-then-brace match).
-/

/-! ## JavaScript whitespace and `Number` string coercion -/

/-- The characters matched by JavaScript's `\s` / trimmed by `String.trim`:
TAB..CR, space, NBSP, and the Unicode space separators. -/
def isWsJS (c : Char) : Bool :=
  let n := c.toNat
  (9 ≤ n && n ≤ 13) || n == 32 || n == 160 || n == 5760 ||
  (8192 ≤ n && n ≤ 8202) || n == 8232 || n == 8233 || n == 8239 ||
  n == 8287 || n == 12288 || n == 65279

/-- Trim leading and trailing JavaScript whitespace. -/
def trimWs (l : List Char) : List Char :=
  ((l.dropWhile isWsJS).reverse.dropWhile isWsJS).reverse

/-- Result of JavaScript `Number(string)`: a finite value (idealised as a
rational), an infinity, or NaN. -/
inductive JSNum where
  | finite (q : ℚ)
  | posInf
  | negInf
  | nan
deriving DecidableEq

/-- Digits taken greedily from the front. -/
def takeDigits (l : List Char) : List Char × List Char :=
  (l.takeWhile Char.isDigit, l.dropWhile Char.isDigit)

/-- Value of a list of decimal digit characters. -/
def digitsVal (ds : List Char) : ℕ :=
  ds.foldl (fun a c => a * 10 + (c.toNat - 48)) 0

/-- Parse an ExponentPart (`e`/`E`, optional sign, at least one digit). -/
def parseExpPart (cs : List Char) : Option (ℤ × List Char) :=
  match cs with
  | [] => none
  | c :: rest =>
    if c = 'e' ∨ c = 'E' then
      let signed : Bool × List Char :=
        match rest with
        | '+' :: r => (false, r)
        | '-' :: r => (true, r)
        | r => (false, r)
      let ds := takeDigits signed.2
      if ds.1.isEmpty then none
      else some ((if signed.1 then -(digitsVal ds.1 : ℤ) else (digitsVal ds.1 : ℤ)), ds.2)
    else none

/-- Numeric value of integer digits, fraction digits and a decimal exponent. -/
def decVal (ip fp : List Char) (e : ℤ) : ℚ :=
  ((digitsVal ip : ℚ) + (digitsVal fp : ℚ) / (10 : ℚ) ^ (fp.length)) * (10 : ℚ) ^ e

/-- Parse a StrUnsignedDecimalLiteral (without `Infinity`); `none` is NaN. -/
def parseUnsignedDec (cs : List Char) : Option ℚ :=
  let ipr := takeDigits cs
  match ipr.2 with
  | '.' :: r2 =>
    let fpr := takeDigits r2
    if ipr.1.isEmpty && fpr.1.isEmpty then none
    else
      match parseExpPart fpr.2 with
      | some (e, r4) => if r4.isEmpty then some (decVal ipr.1 fpr.1 e) else none
      | none => if fpr.2.isEmpty then some (decVal ipr.1 fpr.1 0) else none
  | _ =>
    if ipr.1.isEmpty then none
    else
      match parseExpPart ipr.2 with
      | some (e, r4) => if r4.isEmpty then some (decVal ipr.1 [] e) else none
      | none => if ipr.2.isEmpty then some (decVal ipr.1 [] 0) else none

/-- Value of one digit character in the given radix, if valid. -/
def digitVal (base : ℕ) (c : Char) : Option ℕ :=
  let n := c.toNat
  let v : Option ℕ :=
    if 48 ≤ n ∧ n ≤ 57 then some (n - 48)
    else if 97 ≤ n ∧ n ≤ 122 then some (n - 87)
    else if 65 ≤ n ∧ n ≤ 90 then some (n - 55)
    else none
  match v with
  | some d => if d < base then some d else none
  | none => none

/-- Accumulate digits in the given radix; `none` if any character is invalid. -/
def radixFold (base : ℕ) (acc : ℕ) : List Char → Option ℕ
  | [] => some acc
  | c :: r =>
    match digitVal base c with
    | some d => radixFold base (acc * base + d) r
    | none => none

/-- Parse a NonDecimalIntegerLiteral body (after the `0x`/`0o`/`0b` tag). -/
def parseRadix (base : ℕ) (r : List Char) : JSNum :=
  match r with
  | [] => .nan
  | _ :: _ =>
    match radixFold base 0 r with
    | some n => .finite (n : ℚ)
    | none => .nan

/-- Parse a signed decimal literal or `Infinity`. -/
def parseSigned (neg : Bool) (r : List Char) : JSNum :=
  if r = "Infinity".data then (if neg then .negInf else .posInf)
  else
    match parseUnsignedDec r with
    | some q => .finite (if neg then -q else q)
    | none => .nan

/-- Parse a StrNumericLiteral (trimmed, nonempty). -/
def parseNumericLit (cs : List Char) : JSNum :=
  match cs with
  | '0' :: 'x' :: r => parseRadix 16 r
  | '0' :: 'X' :: r => parseRadix 16 r
  | '0' :: 'o' :: r => parseRadix 8 r
  | '0' :: 'O' :: r => parseRadix 8 r
  | '0' :: 'b' :: r => parseRadix 2 r
  | '0' :: 'B' :: r => parseRadix 2 r
  | '+' :: r => parseSigned false r
  | '-' :: r => parseSigned true r
  | _ => parseSigned false cs

/-- Model of JavaScript `Number(value)` on strings: trim whitespace, the
empty remainder is `0`, otherwise parse a numeric literal (NaN on failure). -/
def jsNumber (value : String) : JSNum :=
  let t := trimWs value.data
  if t.isEmpty then .finite 0 else parseNumericLit t

/-! ## The calculator core (`App.tsx`) -/

/-- `App.tsx` line 7: `const CHARGING_EFFICIENCY = 0.90`. -/
def CHARGING_EFFICIENCY : ℚ := 9 / 10

/-- `App.tsx` lines 23–27:
`const n = Number(value); if (!isFinite(n) || n <= 0) return null; return n;` -/
def parsePositiveNumber (value : String) : Option ℚ :=
  match jsNumber value with
  | .finite n => if n ≤ 0 then none else some n
  | _ => none

/-- `App.tsx` lines 33–36: the ICE-efficiency memo returns `null` on
whitespace-only input before delegating to `parsePositiveNumber`. -/
def iceEfficiencyNum (value : String) : Option ℚ :=
  if (trimWs value.data).isEmpty then none else parsePositiveNumber value

/-- The record returned by the `results` memo (`App.tsx` lines 72–77). -/
structure DerivationResult where
  electricCostPerDist : ℚ
  evFuelEquivalent : ℚ
  rawEfficiency : ℚ
  effectiveEfficiency : ℚ
deriving DecidableEq

/-- `App.tsx` lines 52–78: the `results` memo. -/
def results (Ce E_raw Cf : Option ℚ) : Option DerivationResult :=
  match Ce, E_raw, Cf with
  | some ce, some eraw, some cf =>
    let E_effective := eraw * CHARGING_EFFICIENCY
    let electricCostPerDist := ce / E_effective
    let evFuelEquivalent := cf / electricCostPerDist
    some ⟨electricCostPerDist, evFuelEquivalent, eraw, E_effective⟩
  | _, _, _ => none

/-- The two-valued unit-system selector. -/
inductive UnitSystem where
  | US
  | METRIC
deriving DecidableEq

/-- The record returned by the `comparison` memo (`App.tsx` lines 111–117). -/
structure ComparisonResult where
  gasCostPerDist : ℚ
  efficiencyDisplay : ℚ
  savingsPerDist : ℚ
  percentSavings : ℚ
  efficiencyFactor : ℚ
deriving DecidableEq

/-- `App.tsx` lines 80–118: the `comparison` memo. -/
def comparison (base : Option DerivationResult) (iceIn : Option ℚ)
    (Cf : Option ℚ) (u : UnitSystem) : Option ComparisonResult :=
  match base, iceIn with
  | some b, some ice =>
    match Cf with
    | some cf =>
      let gasCostPerDist : ℚ :=
        match u with
        | .US => cf / ice
        | .METRIC => cf * ice / 100
      let savingsPerDist := gasCostPerDist - b.electricCostPerDist
      let percentSavings : ℚ :=
        if 0 < gasCostPerDist then savingsPerDist / gasCostPerDist * 100 else 0
      let efficiencyFactor := gasCostPerDist / b.electricCostPerDist
      some ⟨gasCostPerDist, ice, savingsPerDist, percentSavings, efficiencyFactor⟩
    | none => none
  | _, _ => none

example : parsePositiveNumber "0.12" = some (3 / 25) := by with_unfolding_all decide
example : parsePositiveNumber "3.5" = some (7 / 2) := by with_unfolding_all decide
example : parsePositiveNumber "" = none := by with_unfolding_all decide
example : parsePositiveNumber "  " = none := by with_unfolding_all decide
example : parsePositiveNumber "-4" = none := by with_unfolding_all decide
example : parsePositiveNumber "abc" = none := by with_unfolding_all decide
example : parsePositiveNumber "1e2" = some 100 := by with_unfolding_all decide
example : parsePositiveNumber "Infinity" = none := by with_unfolding_all decide
example : iceEfficiencyNum "30" = some 30 := by with_unfolding_all decide
example : iceEfficiencyNum "  " = none := by with_unfolding_all decide
example : results (some (12/100)) (some (7/2)) (some 4) =
    some ⟨4/105, 105, 7/2, 63/20⟩ := by with_unfolding_all decide

/-! ## Helper lemmas about the calculator -/

/-- The parser only ever returns strictly positive values. -/
theorem parsePositiveNumber_pos {s : String} {v : ℚ}
    (h : parsePositiveNumber s = some v) : 0 < v := by
  unfold parsePositiveNumber at h
  cases hj : jsNumber s <;> rw [hj] at h
  case finite n =>
    by_cases hn : n ≤ 0
    · simp [hn] at h
    · simp [hn] at h
      exact h ▸ lt_of_not_le hn
  all_goals simp at h

/-- The ICE-efficiency memo also only returns strictly positive values. -/
theorem iceEfficiencyNum_pos {s : String} {v : ℚ}
    (h : iceEfficiencyNum s = some v) : 0 < v := by
  unfold iceEfficiencyNum at h
  split at h
  · exact absurd h (by simp)
  · exact parsePositiveNumber_pos h

theorem results_none₁ (y z : Option ℚ) : results none y z = none := by
  cases y <;> cases z <;> rfl

theorem results_none₂ (x z : Option ℚ) : results x none z = none := by
  cases x <;> cases z <;> rfl

theorem results_none₃ (x y : Option ℚ) : results x y none = none := by
  cases x <;> cases y <;> rfl

theorem comparison_none_base (i f : Option ℚ) (u : UnitSystem) :
    comparison none i f u = none := by
  cases i <;> cases f <;> rfl

/-- Inversion for a present `results` value. -/
theorem results_inv {x y z : Option ℚ} {r : DerivationResult}
    (h : results x y z = some r) :
    ∃ ce eraw cf, x = some ce ∧ y = some eraw ∧ z = some cf ∧
      r = ⟨ce / (eraw * CHARGING_EFFICIENCY),
           cf / (ce / (eraw * CHARGING_EFFICIENCY)), eraw,
           eraw * CHARGING_EFFICIENCY⟩ := by
  cases x with
  | none => rw [results_none₁] at h; cases h
  | some ce =>
    cases y with
    | none => rw [results_none₂] at h; cases h
    | some eraw =>
      cases z with
      | none => rw [results_none₃] at h; cases h
      | some cf =>
        refine ⟨ce, eraw, cf, rfl, rfl, rfl, ?_⟩
        have h' := h
        unfold results at h'
        simp only [Option.some.injEq] at h'
        exact h'.symm

/-- The gas cost per distance selected by the unit system (the `if/else` of
`App.tsx` lines 92–102), as a standalone function for stating lemmas. -/
def gasOf (u : UnitSystem) (cf ice : ℚ) : ℚ :=
  match u with
  | UnitSystem.US => cf / ice
  | UnitSystem.METRIC => cf * ice / 100

/-- Inversion for a present `comparison` value. -/
theorem comparison_inv {b : Option DerivationResult} {i f : Option ℚ}
    {u : UnitSystem} {cr : ComparisonResult}
    (h : comparison b i f u = some cr) :
    ∃ br ice cf, b = some br ∧ i = some ice ∧ f = some cf ∧
      cr = ⟨gasOf u cf ice, ice,
            gasOf u cf ice - br.electricCostPerDist,
            (if 0 < gasOf u cf ice
             then (gasOf u cf ice - br.electricCostPerDist) / gasOf u cf ice * 100
             else 0),
            gasOf u cf ice / br.electricCostPerDist⟩ := by
  cases b with
  | none => rw [comparison_none_base] at h; cases h
  | some br =>
    cases i with
    | none => cases f <;> cases h
    | some ice =>
      cases f with
      | none => cases h
      | some cf =>
        refine ⟨br, ice, cf, rfl, rfl, rfl, ?_⟩
        have h' := h
        unfold comparison at h'
        simp only [Option.some.injEq] at h'
        cases u <;> simpa [gasOf] using h'.symm

/-! ## Claims about the calculator -/

/-- C1: for present positive inputs the `results` memo returns a present
record with `effectiveEfficiency = rawEfficiency * CHARGING_EFFICIENCY`,
`electricCostPerDist = electricityCost / effectiveEfficiency` and
`evFuelEquivalent = fuelPrice / electricCostPerDist`; concretely,
electricityCost 0.12, rawEfficiency 3.5 and fuelPrice 4.00 give
effectiveEfficiency 3.15, electricCostPerDist 4/105 (≈ 0.038095) and
fuel-equivalent efficiency 105. -/
theorem claim_C1 :
    (∀ ce eraw cf : ℚ, 0 < ce → 0 < eraw → 0 < cf →
      results (some ce) (some eraw) (some cf) =
        some ⟨ce / (eraw * CHARGING_EFFICIENCY),
              cf / (ce / (eraw * CHARGING_EFFICIENCY)), eraw,
              eraw * CHARGING_EFFICIENCY⟩) ∧
    results (some (12/100)) (some (7/2)) (some 4) =
      some ⟨4/105, 105, 7/2, 63/20⟩ :=
  ⟨fun _ _ _ _ _ _ => rfl, by with_unfolding_all decide⟩

/-- Witness for C1 at electricityCost 0.12, rawEfficiency 3.5, fuelPrice 4. -/
theorem claim_C1_witness :
    results (some (12/100)) (some (7/2)) (some 4) =
      some ⟨(12/100) / ((7/2) * CHARGING_EFFICIENCY),
            4 / ((12/100) / ((7/2) * CHARGING_EFFICIENCY)), 7/2,
            (7/2) * CHARGING_EFFICIENCY⟩ :=
  claim_C1.1 (12/100) (7/2) 4 (by norm_num) (by norm_num) (by norm_num)

/-- C2: the round-trip identity — whenever the derivation is present for
positive inputs, `evFuelEquivalent * electricCostPerDist = fuelPrice`
exactly over the rationals. -/
theorem claim_C2 (ce eraw cf : ℚ) (hce : 0 < ce) (heraw : 0 < eraw) (hcf : 0 < cf)
    (r : DerivationResult) (h : results (some ce) (some eraw) (some cf) = some r) :
    r.evFuelEquivalent * r.electricCostPerDist = cf := by
  obtain ⟨ce', eraw', cf', h1, h2, h3, hr⟩ := results_inv h
  obtain rfl : ce = ce' := by injection h1
  obtain rfl : eraw = eraw' := by injection h2
  obtain rfl : cf = cf' := by injection h3
  subst hr
  have hpos : 0 < ce / (eraw * CHARGING_EFFICIENCY) := by
    apply div_pos hce
    have : (0:ℚ) < CHARGING_EFFICIENCY := by norm_num [CHARGING_EFFICIENCY]
    exact mul_pos heraw this
  exact div_mul_cancel₀ cf (ne_of_gt hpos)

/-- Witness for C2 at the concrete scenario of the spec. -/
theorem claim_C2_witness :
    (DerivationResult.mk (4/105) 105 (7/2) (63/20)).evFuelEquivalent *
      (DerivationResult.mk (4/105) 105 (7/2) (63/20)).electricCostPerDist = 4 :=
  claim_C2 (12/100) (7/2) 4 (by norm_num) (by norm_num) (by norm_num)
    ⟨4/105, 105, 7/2, 63/20⟩ (by with_unfolding_all decide)

/-- C3: if any of the three required inputs fails to parse, the `results`
memo returns the wholly absent value, and then the `comparison` memo is
also wholly absent for every ICE input and unit system (no partially
populated record can exist: the result is a single `Option` of a full
record). -/
theorem claim_C3 (s1 s2 s3 : String)
    (h : parsePositiveNumber s1 = none ∨ parsePositiveNumber s2 = none ∨
         parsePositiveNumber s3 = none) :
    results (parsePositiveNumber s1) (parsePositiveNumber s2)
        (parsePositiveNumber s3) = none ∧
    ∀ (s4 : String) (u : UnitSystem),
      comparison
        (results (parsePositiveNumber s1) (parsePositiveNumber s2)
          (parsePositiveNumber s3))
        (iceEfficiencyNum s4) (parsePositiveNumber s3) u = none := by
  have hres : results (parsePositiveNumber s1) (parsePositiveNumber s2)
      (parsePositiveNumber s3) = none := by
    rcases h with h | h | h
    · rw [h, results_none₁]
    · rw [h, results_none₂]
    · rw [h, results_none₃]
  refine ⟨hres, fun s4 u => ?_⟩
  rw [hres, comparison_none_base]

/-- Witness for C3: empty electricity-cost text makes everything absent. -/
theorem claim_C3_witness :
    results (parsePositiveNumber "") (parsePositiveNumber "3.5")
        (parsePositiveNumber "4") = none ∧
    ∀ (s4 : String) (u : UnitSystem),
      comparison
        (results (parsePositiveNumber "") (parsePositiveNumber "3.5")
          (parsePositiveNumber "4"))
        (iceEfficiencyNum s4) (parsePositiveNumber "4") u = none :=
  claim_C3 "" "3.5" "4" (Or.inl (by with_unfolding_all decide))

/-- C4: for a present derivation result and positive ICE efficiency and fuel
price, the `comparison` memo returns gasCostPerDist `fuelPrice / iceEfficiency`
in the US system and `fuelPrice * iceEfficiency / 100` in the METRIC system,
savings `gas - electric`, percent savings with the `gas > 0` guard, and
`efficiencyFactor = gas / electric`; concretely fuelPrice 4, iceEfficiency 30
in the US system gives gasCostPerDist 2/15 (≈ 0.1333). -/
theorem claim_C4 :
    (∀ (r : DerivationResult) (ice cf : ℚ), 0 < ice → 0 < cf →
      comparison (some r) (some ice) (some cf) UnitSystem.US =
        some ⟨cf / ice, ice, cf / ice - r.electricCostPerDist,
              if 0 < cf / ice
              then (cf / ice - r.electricCostPerDist) / (cf / ice) * 100 else 0,
              cf / ice / r.electricCostPerDist⟩ ∧
      comparison (some r) (some ice) (some cf) UnitSystem.METRIC =
        some ⟨cf * ice / 100, ice, cf * ice / 100 - r.electricCostPerDist,
              if 0 < cf * ice / 100
              then (cf * ice / 100 - r.electricCostPerDist) / (cf * ice / 100) * 100
              else 0,
              cf * ice / 100 / r.electricCostPerDist⟩) ∧
    comparison (some ⟨4/105, 105, 7/2, 63/20⟩) (some 30) (some 4) UnitSystem.US =
      some ⟨2/15, 30, 2/21, 500/7, 7/2⟩ :=
  ⟨fun _ _ _ _ _ => ⟨rfl, rfl⟩, by with_unfolding_all decide⟩

/-- Witness for C4 at the concrete example of the spec. -/
theorem claim_C4_witness :
    comparison (some ⟨4/105, 105, 7/2, 63/20⟩) (some 30) (some 4) UnitSystem.US =
      some ⟨4 / 30, 30,
            4 / 30 - (DerivationResult.mk (4/105) 105 (7/2) (63/20)).electricCostPerDist,
            if 0 < (4:ℚ) / 30
            then (4 / 30 - (DerivationResult.mk (4/105) 105 (7/2) (63/20)).electricCostPerDist)
                 / (4 / 30) * 100
            else 0,
            4 / 30 / (DerivationResult.mk (4/105) 105 (7/2) (63/20)).electricCostPerDist⟩ :=
  ((claim_C4.1 ⟨4/105, 105, 7/2, 63/20⟩ 30 4 (by norm_num) (by norm_num)).1)

/-- C5: `parsePositiveNumber` returns a value exactly when the JavaScript
`Number` coercion of the text is finite and strictly positive, and empty or
whitespace-only text always yields `none`. -/
theorem claim_C5 :
    (∀ (s : String) (v : ℚ),
        parsePositiveNumber s = some v ↔ jsNumber s = JSNum.finite v ∧ 0 < v) ∧
    (∀ s : String, (∀ c ∈ s.data, isWsJS c = true) → parsePositiveNumber s = none) := by
  constructor
  · intro s v
    unfold parsePositiveNumber
    cases hj : jsNumber s with
    | finite n =>
      by_cases hn : n ≤ 0
      · simp only [hn, if_true, JSNum.finite.injEq]
        constructor
        · intro h; cases h
        · rintro ⟨rfl, hv⟩; exact absurd hn (not_le.mpr hv)
      · simp only [hn, if_false, Option.some.injEq, JSNum.finite.injEq]
        constructor
        · rintro rfl; exact ⟨rfl, lt_of_not_le hn⟩
        · rintro ⟨rfl, _⟩; rfl
    | posInf => simp
    | negInf => simp
    | nan => simp
  · intro s hws
    have hd : s.data.dropWhile isWsJS = [] :=
      List.dropWhile_eq_nil_iff.mpr hws
    have ht : trimWs s.data = [] := by
      unfold trimWs
      rw [hd]
      rfl
    unfold parsePositiveNumber jsNumber
    rw [ht]
    norm_num

/-- Witness for C5: the iff at "2.5" and the whitespace clause at " ". -/
theorem claim_C5_witness :
    (parsePositiveNumber "2.5" = some (5/2) ↔
      jsNumber "2.5" = JSNum.finite (5/2) ∧ 0 < (5/2 : ℚ)) ∧
    parsePositiveNumber " " = none :=
  ⟨claim_C5.1 "2.5" (5/2), claim_C5.2 " " (by decide)⟩

/-- C6: the engine is total (every branch returns a value of the `Option`
type) and every division it performs has a nonzero divisor: parsed values
are strictly positive, so a present derivation has nonzero
`effectiveEfficiency` (the divisor of `electricCostPerDist`) and nonzero
`electricCostPerDist` (the divisor of `evFuelEquivalent` and of
`efficiencyFactor`), a parsed ICE efficiency (the US-branch divisor) is
nonzero, and a present comparison has nonzero `gasCostPerDist` (whose
guarded division branch thus never divides by zero). -/
theorem claim_C6 :
    (∀ (s : String) (v : ℚ), parsePositiveNumber s = some v → 0 < v) ∧
    (∀ (s : String) (v : ℚ), iceEfficiencyNum s = some v → v ≠ 0) ∧
    (∀ (s1 s2 s3 : String) (r : DerivationResult),
        results (parsePositiveNumber s1) (parsePositiveNumber s2)
          (parsePositiveNumber s3) = some r →
        r.effectiveEfficiency ≠ 0 ∧ r.electricCostPerDist ≠ 0) ∧
    (∀ (s1 s2 s3 s4 : String) (u : UnitSystem) (cr : ComparisonResult),
        comparison
          (results (parsePositiveNumber s1) (parsePositiveNumber s2)
            (parsePositiveNumber s3))
          (iceEfficiencyNum s4) (parsePositiveNumber s3) u = some cr →
        cr.gasCostPerDist ≠ 0) := by
  have hC : (0:ℚ) < CHARGING_EFFICIENCY := by norm_num [CHARGING_EFFICIENCY]
  refine ⟨fun s v h => parsePositiveNumber_pos h,
          fun s v h => ne_of_gt (iceEfficiencyNum_pos h), ?_, ?_⟩
  · intro s1 s2 s3 r h
    obtain ⟨ce, eraw, cf, h1, h2, h3, hr⟩ := results_inv h
    have hce := parsePositiveNumber_pos h1
    have heraw := parsePositiveNumber_pos h2
    have heff : (0:ℚ) < eraw * CHARGING_EFFICIENCY := mul_pos heraw hC
    subst hr
    exact ⟨ne_of_gt heff, ne_of_gt (div_pos hce heff)⟩
  · intro s1 s2 s3 s4 u cr h
    obtain ⟨br, ice, cf, hb, hi, hf, hcr⟩ := comparison_inv h
    have hice := iceEfficiencyNum_pos hi
    have hcf := parsePositiveNumber_pos hf
    have hgas : 0 < gasOf u cf ice := by
      cases u with
      | US => exact div_pos hcf hice
      | METRIC =>
        have := mul_pos hcf hice
        exact div_pos this (by norm_num)
    subst hcr
    exact ne_of_gt hgas

/-- Witness for C6 at the concrete scenario. -/
theorem claim_C6_witness :
    (0:ℚ) < 7/2 ∧ (30:ℚ) ≠ 0 ∧
    ((DerivationResult.mk (4/105) 105 (7/2) (63/20)).effectiveEfficiency ≠ 0 ∧
      (DerivationResult.mk (4/105) 105 (7/2) (63/20)).electricCostPerDist ≠ 0) ∧
    (ComparisonResult.mk (2/15) 30 (2/21) (500/7) (7/2)).gasCostPerDist ≠ 0 :=
  ⟨claim_C6.1 "3.5" (7/2) (by with_unfolding_all decide),
   claim_C6.2.1 "30" 30 (by with_unfolding_all decide),
   claim_C6.2.2.1 "0.12" "3.5" "4" ⟨4/105, 105, 7/2, 63/20⟩
     (by with_unfolding_all decide),
   claim_C6.2.2.2 "0.12" "3.5" "4" "30" UnitSystem.US ⟨2/15, 30, 2/21, 500/7, 7/2⟩
     (by with_unfolding_all decide)⟩

/-- C9: positivity invariant — a present derivation built from parsed inputs
has strictly positive `effectiveEfficiency`, `electricCostPerDist` and
`evFuelEquivalent`; a present comparison has strictly positive
`gasCostPerDist` and `efficiencyFactor`; hence the `percentSavings`
zero-fallback branch is unreachable (the guard `0 < gasCostPerDist` always
holds, so `percentSavings` equals the division branch) and `percentSavings`
is always strictly below 100. -/
theorem claim_C9 :
    (∀ (s1 s2 s3 : String) (r : DerivationResult),
        results (parsePositiveNumber s1) (parsePositiveNumber s2)
          (parsePositiveNumber s3) = some r →
        0 < r.effectiveEfficiency ∧ 0 < r.electricCostPerDist ∧
        0 < r.evFuelEquivalent) ∧
    (∀ (s1 s2 s3 s4 : String) (u : UnitSystem) (cr : ComparisonResult),
        comparison
          (results (parsePositiveNumber s1) (parsePositiveNumber s2)
            (parsePositiveNumber s3))
          (iceEfficiencyNum s4) (parsePositiveNumber s3) u = some cr →
        0 < cr.gasCostPerDist ∧ 0 < cr.efficiencyFactor ∧
        cr.percentSavings = cr.savingsPerDist / cr.gasCostPerDist * 100 ∧
        cr.percentSavings < 100) := by
  have hC : (0:ℚ) < CHARGING_EFFICIENCY := by norm_num [CHARGING_EFFICIENCY]
  have hpart1 : ∀ (s1 s2 s3 : String) (r : DerivationResult),
      results (parsePositiveNumber s1) (parsePositiveNumber s2)
        (parsePositiveNumber s3) = some r →
      0 < r.effectiveEfficiency ∧ 0 < r.electricCostPerDist ∧
      0 < r.evFuelEquivalent := by
    intro s1 s2 s3 r h
    obtain ⟨ce, eraw, cf, h1, h2, h3, hr⟩ := results_inv h
    have hce := parsePositiveNumber_pos h1
    have heraw := parsePositiveNumber_pos h2
    have hcf := parsePositiveNumber_pos h3
    have heff : (0:ℚ) < eraw * CHARGING_EFFICIENCY := mul_pos heraw hC
    have hecd : (0:ℚ) < ce / (eraw * CHARGING_EFFICIENCY) := div_pos hce heff
    subst hr
    exact ⟨heff, hecd, div_pos hcf hecd⟩
  refine ⟨hpart1, ?_⟩
  intro s1 s2 s3 s4 u cr h
  obtain ⟨br, ice, cf, hb, hi, hf, hcr⟩ := comparison_inv h
  have hice := iceEfficiencyNum_pos hi
  have hcf := parsePositiveNumber_pos hf
  have he : 0 < br.electricCostPerDist := (hpart1 s1 s2 s3 br hb).2.1
  have hgas : 0 < gasOf u cf ice := by
    cases u with
    | US => exact div_pos hcf hice
    | METRIC => exact div_pos (mul_pos hcf hice) (by norm_num)
  subst hcr
  refine ⟨hgas, div_pos hgas he, ?_, ?_⟩
  · simp only [if_pos hgas]
  · simp only [if_pos hgas]
    have hfrac : (gasOf u cf ice - br.electricCostPerDist) / gasOf u cf ice < 1 :=
      (div_lt_one hgas).mpr (by linarith)
    calc (gasOf u cf ice - br.electricCostPerDist) / gasOf u cf ice * 100
        < 1 * 100 := by linarith
      _ = 100 := by norm_num

/-- Witness for C9 at the concrete scenario. -/
theorem claim_C9_witness :
    (0 < (DerivationResult.mk (4/105) 105 (7/2) (63/20)).effectiveEfficiency ∧
     0 < (DerivationResult.mk (4/105) 105 (7/2) (63/20)).electricCostPerDist ∧
     0 < (DerivationResult.mk (4/105) 105 (7/2) (63/20)).evFuelEquivalent) ∧
    (0 < (ComparisonResult.mk (2/15) 30 (2/21) (500/7) (7/2)).gasCostPerDist ∧
     0 < (ComparisonResult.mk (2/15) 30 (2/21) (500/7) (7/2)).efficiencyFactor ∧
     (ComparisonResult.mk (2/15) 30 (2/21) (500/7) (7/2)).percentSavings =
       (ComparisonResult.mk (2/15) 30 (2/21) (500/7) (7/2)).savingsPerDist /
         (ComparisonResult.mk (2/15) 30 (2/21) (500/7) (7/2)).gasCostPerDist * 100 ∧
     (ComparisonResult.mk (2/15) 30 (2/21) (500/7) (7/2)).percentSavings < 100) :=
  ⟨claim_C9.1 "0.12" "3.5" "4" ⟨4/105, 105, 7/2, 63/20⟩
     (by with_unfolding_all decide),
   claim_C9.2 "0.12" "3.5" "4" "30" UnitSystem.US ⟨2/15, 30, 2/21, 500/7, 7/2⟩
     (by with_unfolding_all decide)⟩

/-- C10: in the US unit system, for presently positive inputs the
comparison's `efficiencyFactor` equals the derivation's fuel-equivalent
efficiency divided by the ICE efficiency. -/
theorem claim_C10 (ce eraw cf ice : ℚ)
    (h1 : 0 < ce) (h2 : 0 < eraw) (h3 : 0 < cf) (h4 : 0 < ice)
    (r : DerivationResult) (cr : ComparisonResult)
    (hr : results (some ce) (some eraw) (some cf) = some r)
    (hcr : comparison (some r) (some ice) (some cf) UnitSystem.US = some cr) :
    cr.efficiencyFactor = r.evFuelEquivalent / ice := by
  obtain ⟨ce', eraw', cf', e1, e2, e3, hrr⟩ := results_inv hr
  obtain rfl : ce = ce' := by injection e1
  obtain rfl : eraw = eraw' := by injection e2
  obtain rfl : cf = cf' := by injection e3
  subst hrr
  obtain ⟨br, ice', cf'', f1, f2, f3, hcc⟩ := comparison_inv hcr
  obtain rfl : br = ⟨ce / (eraw * CHARGING_EFFICIENCY),
      cf / (ce / (eraw * CHARGING_EFFICIENCY)), eraw,
      eraw * CHARGING_EFFICIENCY⟩ := by injection f1.symm
  obtain rfl : ice = ice' := by injection f2
  obtain rfl : cf = cf'' := by injection f3
  subst hcc
  show gasOf UnitSystem.US cf ice / (ce / (eraw * CHARGING_EFFICIENCY)) =
    cf / (ce / (eraw * CHARGING_EFFICIENCY)) / ice
  rw [show gasOf UnitSystem.US cf ice = cf / ice from rfl,
      div_div, div_div, mul_comm]

/-- Witness for C10 at the concrete scenario. -/
theorem claim_C10_witness :
    (ComparisonResult.mk (2/15) 30 (2/21) (500/7) (7/2)).efficiencyFactor =
      (DerivationResult.mk (4/105) 105 (7/2) (63/20)).evFuelEquivalent / 30 :=
  claim_C10 (12/100) (7/2) 4 30 (by norm_num) (by norm_num) (by norm_num)
    (by norm_num) ⟨4/105, 105, 7/2, 63/20⟩ ⟨2/15, 30, 2/21, 500/7, 7/2⟩
    (by with_unfolding_all decide) (by with_unfolding_all decide)

/-! ## The Gradle patcher (`android-create-signed.cjs`)

The script's text surgery is embedded as a pure function on file contents
given as `List Char`.  `String.prototype.includes` is `occurs`; the two
anchor regexes `buildTypes\s*\x7b` and `getByName("release")\s*\x7b` are
`findLWB lit`, the leftmost occurrence of the literal `lit` followed by a
whitespace run and an opening brace (greedy `\s*` and the first-match rule
coincide here because a brace is not whitespace). -/

/-- The opening-brace character. -/
def braceOpen : Char := Char.ofNat 123

/-- Boolean prefix test on character lists. -/
def isPfx : List Char → List Char → Bool
  | [], _ => true
  | _ :: _, [] => false
  | a :: s, b :: t => a = b && isPfx s t

/-- `hay.includes(needle)`: some position of `hay` starts with `needle`. -/
def occurs (needle : List Char) : List Char → Bool
  | [] => needle.isEmpty
  | c :: t => isPfx needle (c :: t) || occurs needle t

/-- Strip an expected literal from the front, returning the rest. -/
def stripLit : List Char → List Char → Option (List Char)
  | [], cs => some cs
  | _ :: _, [] => none
  | l :: ls, c :: cs => if c = l then stripLit ls cs else none

/-- Consume `\s*` followed by an opening brace; return (consumed, rest). -/
def matchWsBrace : List Char → Option (List Char × List Char)
  | [] => none
  | c :: cs =>
    if c = braceOpen then some ([c], cs)
    else if isWsJS c then
      match matchWsBrace cs with
      | some (m, r) => some (c :: m, r)
      | none => none
    else none

/-- Try the anchor pattern at the current position. -/
def tryLWB (lit cs : List Char) : Option (List Char × List Char) :=
  match stripLit lit cs with
  | some r =>
    match matchWsBrace r with
    | some (m, rest) => some (lit ++ m, rest)
    | none => none
  | none => none

/-- Leftmost match of the anchor pattern: returns (before, match, after). -/
def findLWB (lit : List Char) : List Char → Option (List Char × List Char × List Char)
  | [] =>
    (match tryLWB lit [] with
     | some (m, rest) => some ([], m, rest)
     | none => none)
  | c :: cs =>
    match tryLWB lit (c :: cs) with
    | some (m, rest) => some ([], m, rest)
    | none =>
      match findLWB lit cs with
      | some (b, m, rest) => some (c :: b, m, rest)
      | none => none

/-- `IMPORTS_TO_ADD[0]`. -/
def IMPORT1 : List Char := "import java.io.FileInputStream".data

/-- `IMPORTS_TO_ADD[1]`. -/
def IMPORT2 : List Char := "import java.util.Properties".data

/-- First `includes` probe of step 2.2. -/
def CREATE_RELEASE_TXT : List Char := "create(\"release\")".data

/-- Second `includes` probe of step 2.2. -/
def KEYSTORE_PROPS_TXT : List Char := "keystore.properties".data

/-- Literal part of the `buildTypes\s*\x7b` anchor. -/
def BUILD_TYPES_LIT : List Char := "buildTypes".data

/-- Literal part of the `getByName("release")\s*\x7b` anchor. -/
def GET_BY_NAME_LIT : List Char := "getByName(\"release\")".data

/-- The `includes` probe of step 2.3. -/
def SIGNING_LINE_TXT : List Char :=
  "signingConfig = signingConfigs.getByName(\"release\")".data

/-- `RELEASE_CONFIG_LINE` of the script (12 spaces of indentation). -/
def RELEASE_CONFIG_LINE : List Char :=
  "            signingConfig = signingConfigs.getByName(\"release\")".data

/-- `SIGNING_CONFIG_BLOCK` of the script (a template literal that begins and
ends with a newline). -/
def SIGNING_CONFIG_BLOCK : List Char :=
  ("\n    signingConfigs \x7b\n        create(\"release\") \x7b\n            val keystorePropertiesFile = rootProject.file(\"keystore.properties\")\n            val keystoreProperties = Properties()\n            if (keystorePropertiesFile.exists()) \x7b\n                keystoreProperties.load(FileInputStream(keystorePropertiesFile))\n            \x7d\n\n            keyAlias = keystoreProperties[\"keyAlias\"] as String\n            keyPassword = keystoreProperties[\"password\"] as String\n            storeFile = file(keystoreProperties[\"storeFile\"] as String)\n            storePassword = keystoreProperties[\"password\"] as String\n        \x7d\n    \x7d\n").data

/-- The glue `\n    ` of the step 2.2 replacement template. -/
def INDENT4 : List Char := "\n    ".data

/-- Step 2.1: prepend each missing import (both `includes` probes run
against the original content, as in the script's `forEach`). -/
def step_imports (content : List Char) : List Char :=
  (if occurs IMPORT1 content then [] else IMPORT1 ++ ['\n']) ++
  (if occurs IMPORT2 content then [] else IMPORT2 ++ ['\n']) ++ content

/-- Step 2.2: unless both probes are present, insert the signing block
before the first `buildTypes\s*\x7b` anchor (replacement
`BLOCK + "\n    " + $1`). -/
def step_signing (content : List Char) : List Char :=
  if occurs CREATE_RELEASE_TXT content && occurs KEYSTORE_PROPS_TXT content then
    content
  else
    match findLWB BUILD_TYPES_LIT content with
    | some (b, m, a) => b ++ SIGNING_CONFIG_BLOCK ++ INDENT4 ++ m ++ a
    | none => content

/-- Step 2.3: unless the probe is present, insert the release config line
after the first `getByName("release")\s*\x7b` anchor (replacement
`$1 + "\n" + LINE`). -/
def step_release (content : List Char) : List Char :=
  if occurs SIGNING_LINE_TXT content then content
  else
    match findLWB GET_BY_NAME_LIT content with
    | some (b, m, a) => b ++ m ++ '\n' :: RELEASE_CONFIG_LINE ++ a
    | none => content

/-- The whole text transform of `main` (steps 2.1, 2.2, 2.3 in order). -/
def gradleTransform (content : List Char) : List Char :=
  step_release (step_signing (step_imports content))

/-- Observable outcome of one run of the script's `main`. -/
structure GradleRun where
  exitCode : Option ℕ
  warnedMissingKeystore : Bool
  copiedKeystore : Bool
  erroredCopy : Bool
  erroredNoBuildTypes : Bool
  erroredNoRelease : Bool
  wroteFile : Bool
  finalContent : List Char
deriving DecidableEq

/-- `main` of `android-create-signed.cjs`: a missing Gradle file exits with
status 1 before anything else; otherwise the keystore is copied (warning if
absent, non-fatal error if the copy throws), the three text steps run with
their console reports, and the file is written only when the content
changed. -/
def runMain (gradleExists keystoreExists copySucceeds : Bool)
    (content : List Char) : GradleRun :=
  if gradleExists then
    let c1 := step_imports content
    let skipSign := occurs CREATE_RELEASE_TXT c1 && occurs KEYSTORE_PROPS_TXT c1
    let foundBT := (findLWB BUILD_TYPES_LIT c1).isSome
    let c2 := step_signing c1
    let skipRel := occurs SIGNING_LINE_TXT c2
    let foundRel := (findLWB GET_BY_NAME_LIT c2).isSome
    let c3 := step_release c2
    { exitCode := none
      warnedMissingKeystore := !keystoreExists
      copiedKeystore := keystoreExists && copySucceeds
      erroredCopy := keystoreExists && !copySucceeds
      erroredNoBuildTypes := !skipSign && !foundBT
      erroredNoRelease := !skipRel && !foundRel
      wroteFile := decide (c3 ≠ content)
      finalContent := c3 }
  else
    { exitCode := some 1
      warnedMissingKeystore := false
      copiedKeystore := false
      erroredCopy := false
      erroredNoBuildTypes := false
      erroredNoRelease := false
      wroteFile := false
      finalContent := content }

/-! ## Substring occurrence infrastructure -/

/-- Propositional form of substring occurrence. -/
def OccursP (s c : List Char) : Prop := ∃ B A, c = B ++ s ++ A

theorem isPfx_iff (s c : List Char) : isPfx s c = true ↔ ∃ r, c = s ++ r := by
  induction s generalizing c with
  | nil => simp [isPfx]
  | cons a s ih =>
    cases c with
    | nil => simp [isPfx]
    | cons b t =>
      rw [isPfx]
      simp only [Bool.and_eq_true, decide_eq_true_eq]
      constructor
      · rintro ⟨rfl, hp⟩
        obtain ⟨r, rfl⟩ := (ih t).mp hp
        exact ⟨r, rfl⟩
      · rintro ⟨r, hr⟩
        rw [List.cons_append] at hr
        injection hr with h1 h2
        exact ⟨h1.symm, (ih t).mpr ⟨r, h2⟩⟩

theorem occurs_iff (s c : List Char) : occurs s c = true ↔ OccursP s c := by
  induction c with
  | nil =>
    rw [occurs]
    simp only [List.isEmpty_iff]
    constructor
    · rintro rfl; exact ⟨[], [], rfl⟩
    · rintro ⟨B, A, h⟩
      rcases List.append_eq_nil.mp h.symm with ⟨h1, h2⟩
      exact (List.append_eq_nil.mp h1).2
  | cons x t ih =>
    rw [occurs]
    simp only [Bool.or_eq_true, isPfx_iff, ih]
    constructor
    · rintro (⟨r, hr⟩ | ⟨B, A, hBA⟩)
      · exact ⟨[], r, by simpa using hr⟩
      · exact ⟨x :: B, A, by rw [hBA]; rfl⟩
    · rintro ⟨B, A, hBA⟩
      cases B with
      | nil => exact Or.inl ⟨A, by simpa using hBA⟩
      | cons y B' =>
        simp only [List.cons_append] at hBA
        injection hBA with h1 h2
        exact Or.inr ⟨B', A, h2⟩

/-- Splitting an occurrence across a concatenation: it lies in the left
part, in the right part, or straddles the junction. -/
theorem occ_split {s P Q B A : List Char} (h : P ++ Q = B ++ s ++ A) :
    OccursP s P ∨ OccursP s Q ∨
    ∃ s₁ s₂ P₀ A', s = s₁ ++ s₂ ∧ s₁ ≠ [] ∧ s₂ ≠ [] ∧ P = P₀ ++ s₁ ∧
      Q = s₂ ++ A' := by
  rw [List.append_assoc] at h
  rcases List.append_eq_append_iff.mp h with ⟨a', hB, hQ⟩ | ⟨c', hP, hsA⟩
  · exact Or.inr (Or.inl ⟨a', A, by rw [hQ, List.append_assoc]⟩)
  · rcases List.append_eq_append_iff.mp hsA with ⟨b', hc', hA⟩ | ⟨s₂, hs, hQ⟩
    · exact Or.inl ⟨B, b', by rw [hP, hc', List.append_assoc]⟩
    · by_cases hc0 : c' = []
      · subst hc0
        rw [List.nil_append] at hs
        exact Or.inr (Or.inl ⟨[], A, by rw [hQ, hs]; rfl⟩)
      · by_cases hs2 : s₂ = []
        · subst hs2
          rw [List.append_nil] at hs
          exact Or.inl ⟨B, [], by rw [hP, List.append_nil, hs]⟩
        · exact Or.inr (Or.inr ⟨c', s₂, B, A, hs, hc0, hs2, hP, hQ⟩)

theorem occP_in_left {s P : List Char} (h : OccursP s P) (Q : List Char) :
    OccursP s (P ++ Q) := by
  obtain ⟨B, A, rfl⟩ := h
  exact ⟨B, A ++ Q, by simp [List.append_assoc]⟩

theorem occP_in_right {s Q : List Char} (h : OccursP s Q) (P : List Char) :
    OccursP s (P ++ Q) := by
  obtain ⟨B, A, rfl⟩ := h
  exact ⟨P ++ B, A, by simp [List.append_assoc]⟩

/-- Inserting text right after a terminal character `z` that does not occur
in `s` cannot destroy an occurrence of `s`. -/
theorem occP_insert_left {s P Q X : List Char} {z : Char}
    (hz : z ∉ s) (hP : ∃ P₀, P = P₀ ++ [z]) (h : OccursP s (P ++ Q)) :
    OccursP s (P ++ X ++ Q) := by
  obtain ⟨B, A, hBA⟩ := h
  rcases occ_split hBA with hp | hq | ⟨s₁, s₂, P₀', A', hs, h1, h2, hP', hQ'⟩
  · rw [List.append_assoc]
    exact occP_in_left hp (X ++ Q)
  · rw [List.append_assoc]
    exact occP_in_right (occP_in_right hq X) P
  · exfalso
    obtain ⟨P₀, rfl⟩ := hP
    rcases s₁.eq_nil_or_concat' with rfl | ⟨L, z', rfl⟩
    · exact h1 rfl
    · have hcat : (P₀' ++ L) ++ [z'] = P₀ ++ [z] := by
        rw [List.append_assoc, ← hP']
      obtain ⟨-, hz'⟩ := List.append_inj' hcat rfl
      obtain rfl : z' = z := by injection hz'
      apply hz
      rw [hs]
      exact List.mem_append.mpr (Or.inl (List.mem_append.mpr
        (Or.inr (List.mem_singleton.mpr rfl))))

/-- Inserting text right before a leading character `z` that does not occur
in `s` cannot destroy an occurrence of `s`. -/
theorem occP_insert_right {s P Q X : List Char} {z : Char} {Q₀ : List Char}
    (hz : z ∉ s) (hQ : Q = z :: Q₀) (h : OccursP s (P ++ Q)) :
    OccursP s (P ++ X ++ Q) := by
  obtain ⟨B, A, hBA⟩ := h
  rcases occ_split hBA with hp | hq | ⟨s₁, s₂, P₀', A', hs, h1, h2, hP', hQ'⟩
  · rw [List.append_assoc]
    exact occP_in_left hp (X ++ Q)
  · rw [List.append_assoc]
    exact occP_in_right (occP_in_right hq X) P
  · exfalso
    cases s₂ with
    | nil => exact h2 rfl
    | cons y s₂' =>
      rw [hQ, List.cons_append] at hQ'
      injection hQ' with hy htail
      apply hz
      rw [hs, hy]
      exact List.mem_append.mpr (Or.inr (List.mem_cons_self y s₂'))

/-! ## Soundness and completeness of the anchor matcher -/

theorem stripLit_sound : ∀ {lit cs r : List Char},
    stripLit lit cs = some r → cs = lit ++ r := by
  intro lit
  induction lit with
  | nil =>
    intro cs r h
    simp only [stripLit, Option.some.injEq] at h
    simp [h]
  | cons l ls ih =>
    intro cs r h
    cases cs with
    | nil => exact absurd h (by rw [stripLit]; simp)
    | cons c cs' =>
      rw [stripLit] at h
      by_cases hc : c = l
      · rw [if_pos hc] at h
        subst hc
        rw [List.cons_append, ih h]
      · rw [if_neg hc] at h
        cases h

theorem matchWsBrace_sound : ∀ {cs m rest : List Char},
    matchWsBrace cs = some (m, rest) →
    cs = m ++ rest ∧ ∃ w, m = w ++ [braceOpen] ∧ ∀ x ∈ w, isWsJS x = true := by
  intro cs
  induction cs with
  | nil => intro m rest h; exact absurd h (by rw [matchWsBrace]; simp)
  | cons c cs' ih =>
    intro m rest h
    by_cases hb : c = braceOpen
    · rw [matchWsBrace, if_pos hb] at h
      simp only [Option.some.injEq, Prod.mk.injEq] at h
      obtain ⟨rfl, rfl⟩ := h
      subst hb
      exact ⟨rfl, [], rfl, by simp⟩
    · by_cases hw : isWsJS c = true
      · cases hmw : matchWsBrace cs' with
        | none =>
          simp only [matchWsBrace, if_neg hb, if_pos hw, hmw] at h
          exact Option.noConfusion h
        | some pr =>
          obtain ⟨m', r'⟩ := pr
          simp only [matchWsBrace, if_neg hb, if_pos hw, hmw,
            Option.some.injEq, Prod.mk.injEq] at h
          obtain ⟨rfl, rfl⟩ := h
          obtain ⟨hcs, w, hm, hws⟩ := ih hmw
          refine ⟨by rw [List.cons_append, hcs], c :: w, by rw [hm]; rfl, ?_⟩
          intro x hx
          rcases List.mem_cons.mp hx with rfl | hx'
          · exact hw
          · exact hws x hx'
      · rw [matchWsBrace, if_neg hb, if_neg hw] at h
        cases h

theorem tryLWB_sound {lit cs m rest : List Char}
    (h : tryLWB lit cs = some (m, rest)) :
    cs = m ++ rest ∧ ∃ w, m = lit ++ (w ++ [braceOpen]) ∧
      ∀ x ∈ w, isWsJS x = true := by
  cases hs : stripLit lit cs with
  | none =>
    simp only [tryLWB, hs] at h
    exact Option.noConfusion h
  | some r =>
    cases hm : matchWsBrace r with
    | none =>
      simp only [tryLWB, hs, hm] at h
      exact Option.noConfusion h
    | some pr =>
      obtain ⟨m', r'⟩ := pr
      simp only [tryLWB, hs, hm, Option.some.injEq, Prod.mk.injEq] at h
      obtain ⟨rfl, rfl⟩ := h
      obtain ⟨hr, w, hm', hws⟩ := matchWsBrace_sound hm
      have hcs := stripLit_sound hs
      exact ⟨by rw [hcs, hr, List.append_assoc], w, by rw [hm'], hws⟩

theorem findLWB_sound : ∀ {lit c b m a : List Char},
    findLWB lit c = some (b, m, a) →
    c = b ++ m ++ a ∧ ∃ w, m = lit ++ (w ++ [braceOpen]) ∧
      ∀ x ∈ w, isWsJS x = true := by
  intro lit c
  induction c with
  | nil =>
    intro b m a h
    cases ht : tryLWB lit [] with
    | none =>
      simp only [findLWB, ht] at h
      exact Option.noConfusion h
    | some pr =>
      obtain ⟨m', r'⟩ := pr
      simp only [findLWB, ht, Option.some.injEq, Prod.mk.injEq] at h
      obtain ⟨rfl, rfl, rfl⟩ := h
      obtain ⟨h1, hw⟩ := tryLWB_sound ht
      exact ⟨by simpa using h1, hw⟩
  | cons x cs ih =>
    intro b m a h
    cases ht : tryLWB lit (x :: cs) with
    | some pr =>
      obtain ⟨m', r'⟩ := pr
      simp only [findLWB, ht, Option.some.injEq, Prod.mk.injEq] at h
      obtain ⟨rfl, rfl, rfl⟩ := h
      obtain ⟨h1, hw⟩ := tryLWB_sound ht
      exact ⟨by simpa using h1, hw⟩
    | none =>
      cases hf : findLWB lit cs with
      | none =>
        simp only [findLWB, ht, hf] at h
        exact Option.noConfusion h
      | some tr =>
        obtain ⟨b', m', a'⟩ := tr
        simp only [findLWB, ht, hf, Option.some.injEq, Prod.mk.injEq] at h
        obtain ⟨rfl, rfl, rfl⟩ := h
        obtain ⟨h1, hw⟩ := ih hf
        exact ⟨by simp [h1], hw⟩

theorem stripLit_refl (lit r : List Char) : stripLit lit (lit ++ r) = some r := by
  induction lit with
  | nil => rfl
  | cons l ls ih => simp [stripLit, ih]

theorem isWsJS_braceOpen : isWsJS braceOpen = false := by decide

theorem matchWsBrace_complete : ∀ {w : List Char}, (∀ x ∈ w, isWsJS x = true) →
    ∀ A, matchWsBrace (w ++ braceOpen :: A) = some (w ++ [braceOpen], A) := by
  intro w
  induction w with
  | nil =>
    intro _ A
    rw [List.nil_append, matchWsBrace, if_pos rfl]
    rfl
  | cons c w' ih =>
    intro hw A
    have hc : isWsJS c = true := hw c (List.mem_cons_self c w')
    have hcb : ¬(c = braceOpen) := by
      intro hcb
      rw [hcb, isWsJS_braceOpen] at hc
      cases hc
    rw [List.cons_append, matchWsBrace, if_neg hcb, if_pos hc,
      ih (fun x hx => hw x (List.mem_cons_of_mem c hx)) A]
    rfl

theorem tryLWB_complete {lit w : List Char} (hw : ∀ x ∈ w, isWsJS x = true)
    (A : List Char) :
    tryLWB lit (lit ++ (w ++ braceOpen :: A)) =
      some (lit ++ (w ++ [braceOpen]), A) := by
  simp only [tryLWB, stripLit_refl, matchWsBrace_complete hw A]

/-- An occurrence of the anchor pattern anywhere in the text. -/
def PatP (lit c : List Char) : Prop :=
  ∃ B w A, (∀ x ∈ w, isWsJS x = true) ∧ c = B ++ (lit ++ (w ++ braceOpen :: A))

theorem findLWB_ne_none_of_patP : ∀ {lit c : List Char},
    PatP lit c → findLWB lit c ≠ none := by
  intro lit c
  induction c with
  | nil =>
    rintro ⟨B, w, A, hw, hc⟩
    exfalso
    have hlen := congrArg List.length hc
    simp only [List.length_nil, List.length_append, List.length_cons] at hlen
    omega
  | cons x cs ih =>
    rintro ⟨B, w, A, hw, hc⟩ hnone
    cases B with
    | nil =>
      rw [List.nil_append] at hc
      have hT : tryLWB lit (lit ++ (w ++ braceOpen :: A)) =
          some (lit ++ (w ++ [braceOpen]), A) := tryLWB_complete hw A
      rw [← hc] at hT
      simp only [findLWB, hT] at hnone
      exact Option.noConfusion hnone
    | cons y B' =>
      rw [List.cons_append] at hc
      injection hc with hxy hcs
      cases ht : tryLWB lit (x :: cs) with
      | some pr =>
        obtain ⟨m', r'⟩ := pr
        simp only [findLWB, ht] at hnone
        exact Option.noConfusion hnone
      | none =>
        cases hf : findLWB lit cs with
        | some tr =>
          obtain ⟨b', m', a'⟩ := tr
          simp only [findLWB, ht, hf] at hnone
          exact Option.noConfusion hnone
        | none => exact ih ⟨B', w, A, hw, hcs⟩ hf

/-! ## Step-level lemmas for the Gradle transform -/

theorem occP_CREATE_BLOCK : OccursP CREATE_RELEASE_TXT SIGNING_CONFIG_BLOCK :=
  (occurs_iff _ _).mp (by decide)

theorem occP_KEYSTORE_BLOCK : OccursP KEYSTORE_PROPS_TXT SIGNING_CONFIG_BLOCK :=
  (occurs_iff _ _).mp (by decide)

theorem occP_SIGNING_NLRELEASE :
    OccursP SIGNING_LINE_TXT ('\n' :: RELEASE_CONFIG_LINE) :=
  (occurs_iff _ _).mp (by decide)

theorem step_imports_id {c : List Char} (h1 : occurs IMPORT1 c = true)
    (h2 : occurs IMPORT2 c = true) : step_imports c = c := by
  rw [step_imports, if_pos h1, if_pos h2]
  rfl

theorem step_signing_id {c : List Char}
    (h : (occurs CREATE_RELEASE_TXT c && occurs KEYSTORE_PROPS_TXT c) = true) :
    step_signing c = c := by
  rw [step_signing, if_pos h]

theorem step_signing_id_nf {c : List Char}
    (hg : ¬ (occurs CREATE_RELEASE_TXT c && occurs KEYSTORE_PROPS_TXT c) = true)
    (hf : findLWB BUILD_TYPES_LIT c = none) : step_signing c = c := by
  simp only [step_signing, if_neg hg, hf]

theorem step_release_id {c : List Char} (h : occurs SIGNING_LINE_TXT c = true) :
    step_release c = c := by
  rw [step_release, if_pos h]

theorem step_signing_cases (c : List Char) :
    step_signing c = c ∨
    ∃ b m a w, c = b ++ m ++ a ∧
      m = BUILD_TYPES_LIT ++ (w ++ [braceOpen]) ∧
      (∀ x ∈ w, isWsJS x = true) ∧
      step_signing c = b ++ SIGNING_CONFIG_BLOCK ++ INDENT4 ++ m ++ a := by
  by_cases hg : (occurs CREATE_RELEASE_TXT c && occurs KEYSTORE_PROPS_TXT c) = true
  · exact Or.inl (step_signing_id hg)
  · cases hf : findLWB BUILD_TYPES_LIT c with
    | none => exact Or.inl (step_signing_id_nf hg hf)
    | some tr =>
      obtain ⟨b, m, a⟩ := tr
      obtain ⟨hc, w, hm, hws⟩ := findLWB_sound hf
      exact Or.inr ⟨b, m, a, w, hc, hm, hws,
        by simp only [step_signing, if_neg hg, hf]⟩

theorem step_release_cases (c : List Char) :
    step_release c = c ∨
    ∃ b m a w, c = b ++ m ++ a ∧
      m = GET_BY_NAME_LIT ++ (w ++ [braceOpen]) ∧
      (∀ x ∈ w, isWsJS x = true) ∧
      step_release c = b ++ m ++ ('\n' :: RELEASE_CONFIG_LINE) ++ a := by
  by_cases hg : occurs SIGNING_LINE_TXT c = true
  · exact Or.inl (step_release_id hg)
  · cases hf : findLWB GET_BY_NAME_LIT c with
    | none => exact Or.inl (by simp only [step_release, if_neg hg, hf])
    | some tr =>
      obtain ⟨b, m, a⟩ := tr
      obtain ⟨hc, w, hm, hws⟩ := findLWB_sound hf
      refine Or.inr ⟨b, m, a, w, hc, hm, hws, ?_⟩
      simp only [step_release, if_neg hg, hf]

theorem step_imports_has (c : List Char) :
    occurs IMPORT1 (step_imports c) = true ∧
    occurs IMPORT2 (step_imports c) = true := by
  rw [occurs_iff, occurs_iff]
  unfold step_imports
  constructor
  · by_cases h1 : occurs IMPORT1 c = true
    · rw [occurs_iff] at h1
      obtain ⟨B, A, hBA⟩ := h1
      exact ⟨(if occurs IMPORT1 c = true then [] else IMPORT1 ++ ['\n']) ++
             ((if occurs IMPORT2 c = true then [] else IMPORT2 ++ ['\n']) ++ B), A,
        by rw [hBA]; simp [List.append_assoc]⟩
    · rw [if_neg h1]
      exact ⟨[], '\n' ::
          ((if occurs IMPORT2 c = true then [] else IMPORT2 ++ ['\n']) ++ c),
        by simp [List.append_assoc]⟩
  · by_cases h2 : occurs IMPORT2 c = true
    · rw [occurs_iff] at h2
      obtain ⟨B, A, hBA⟩ := h2
      exact ⟨(if occurs IMPORT1 c = true then [] else IMPORT1 ++ ['\n']) ++
             ((if occurs IMPORT2 c = true then [] else IMPORT2 ++ ['\n']) ++ B), A,
        by rw [hBA]; simp [List.append_assoc]⟩
    · rw [if_neg h2]
      exact ⟨(if occurs IMPORT1 c = true then [] else IMPORT1 ++ ['\n']), '\n' :: c,
        by simp [List.append_assoc]⟩

theorem occurs_step_signing {s c : List Char} (hb : ('b' : Char) ∉ s)
    (h : occurs s c = true) : occurs s (step_signing c) = true := by
  rcases step_signing_cases c with he | ⟨b, m, a, w, hc, hm, hws, he⟩
  · rw [he]; exact h
  · rw [he, occurs_iff]
    rw [occurs_iff, hc] at h
    have h' : OccursP s (b ++ (m ++ a)) := by
      rwa [← List.append_assoc]
    obtain ⟨t, ht⟩ : ∃ t, BUILD_TYPES_LIT = 'b' :: t := ⟨"uildTypes".data, by decide⟩
    have hQ : m ++ a = 'b' :: (t ++ ((w ++ [braceOpen]) ++ a)) := by
      rw [hm, ht]; simp [List.append_assoc]
    have hins := occP_insert_right (X := SIGNING_CONFIG_BLOCK ++ INDENT4) hb hQ h'
    have hsh : (b ++ (SIGNING_CONFIG_BLOCK ++ INDENT4)) ++ (m ++ a) =
        b ++ SIGNING_CONFIG_BLOCK ++ INDENT4 ++ m ++ a := by
      simp [List.append_assoc]
    rwa [hsh] at hins

theorem occurs_step_release {s c : List Char} (hbr : braceOpen ∉ s)
    (h : occurs s c = true) : occurs s (step_release c) = true := by
  rcases step_release_cases c with he | ⟨b, m, a, w, hc, hm, hws, he⟩
  · rw [he]; exact h
  · rw [he, occurs_iff]
    rw [occurs_iff, hc] at h
    have hPe : ∃ P₀, b ++ m = P₀ ++ [braceOpen] :=
      ⟨b ++ (GET_BY_NAME_LIT ++ w), by rw [hm]; simp [List.append_assoc]⟩
    exact occP_insert_left (X := '\n' :: RELEASE_CONFIG_LINE) hbr hPe h

theorem step_release_idem (c : List Char) :
    step_release (step_release c) = step_release c := by
  rcases step_release_cases c with he | ⟨b, m, a, w, hc, hm, hws, he⟩
  · rw [he]
    exact he
  · rw [he]
    apply step_release_id
    rw [occurs_iff]
    exact occP_in_left (occP_in_right occP_SIGNING_NLRELEASE (b ++ m)) a

/-- Inserting the release-config line right after a closing position that
ends in an opening brace cannot create a `buildTypes\s*\x7b` anchor that was
not already present. -/
theorem findBT_insert_none {P a : List Char}
    (hP : ∃ P₀, P = P₀ ++ [braceOpen])
    (hn : findLWB BUILD_TYPES_LIT (P ++ a) = none) :
    findLWB BUILD_TYPES_LIT (P ++ (('\n' :: RELEASE_CONFIG_LINE) ++ a)) = none := by
  cases hx : findLWB BUILD_TYPES_LIT (P ++ (('\n' :: RELEASE_CONFIG_LINE) ++ a)) with
  | none => rfl
  | some tr =>
    exfalso
    obtain ⟨b', m', a'⟩ := tr
    obtain ⟨hdec, w', hm', hws'⟩ := findLWB_sound hx
    apply findLWB_ne_none_of_patP ?_ hn
    rcases occ_split hdec with hp | hq |
      ⟨s₁, s₂, P₀', A', hs, hne1, hne2, hP', hQ'⟩
    · obtain ⟨B1, A1, h1⟩ := hp
      exact ⟨B1, w', A1 ++ a, hws', by rw [h1, hm']; simp [List.append_assoc]⟩
    · obtain ⟨B2, A2, h2⟩ := hq
      rcases occ_split h2 with hpx | hqa |
        ⟨t₁, t₂, P₀2, A2', hts, htne1, htne2, hXs, has⟩
      · obtain ⟨B3, A3, h3⟩ := hpx
        have hoc : occurs BUILD_TYPES_LIT ('\n' :: RELEASE_CONFIG_LINE) = true := by
          rw [occurs_iff]
          exact ⟨B3, (w' ++ [braceOpen]) ++ A3,
            by rw [h3, hm']; simp [List.append_assoc]⟩
        exact absurd hoc (by decide)
      · obtain ⟨B3, A3, h3⟩ := hqa
        exact ⟨P ++ B3, w', A3, hws',
          by rw [h3, hm']; simp [List.append_assoc]⟩
      · rcases t₁.eq_nil_or_concat' with rfl | ⟨L, z, rfl⟩
        · exact absurd rfl htne1
        · have hXcat : (P₀2 ++ L) ++ [z] = '\n' :: RELEASE_CONFIG_LINE := by
            rw [List.append_assoc, ← hXs]
          have hXY : '\n' :: RELEASE_CONFIG_LINE =
              ("\n            signingConfig = signingConfigs.getByName(\"release\"".data)
                ++ [')'] := by decide
          rw [hXY] at hXcat
          obtain ⟨-, hz⟩ := List.append_inj' hXcat rfl
          obtain rfl : z = ')' := by injection hz
          have hzm : (')' : Char) ∈ m' := by
            rw [hts]
            exact List.mem_append.mpr (Or.inl (List.mem_append.mpr
              (Or.inr (List.mem_singleton.mpr rfl))))
          rw [hm'] at hzm
          rcases List.mem_append.mp hzm with h1 | h1
          · exact absurd h1 (by decide)
          · rcases List.mem_append.mp h1 with h2 | h2
            · exact absurd (hws' _ h2) (by decide)
            · rw [List.mem_singleton] at h2
              exact absurd h2 (by decide)
    · obtain ⟨P₀, hPeq⟩ := hP
      rcases s₁.eq_nil_or_concat' with rfl | ⟨L, z, rfl⟩
      · exact absurd rfl hne1
      · have hcat : (P₀' ++ L) ++ [z] = P₀ ++ [braceOpen] := by
          rw [List.append_assoc, ← hP', hPeq]
        obtain ⟨-, hz⟩ := List.append_inj' hcat rfl
        obtain rfl : z = braceOpen := by injection hz
        have hm'2 : (BUILD_TYPES_LIT ++ w') ++ [braceOpen] =
            (L ++ [braceOpen]) ++ s₂ := by
          rw [List.append_assoc, ← hm', hs]
        have hco : L ++ (braceOpen :: s₂) =
            (BUILD_TYPES_LIT ++ w') ++ [braceOpen] := by
          have hsh : L ++ (braceOpen :: s₂) = (L ++ [braceOpen]) ++ s₂ := by
            simp [List.append_assoc]
          rw [hsh]
          exact hm'2.symm
        rcases List.append_eq_append_iff.mp hco with ⟨a₂, hBTw, hbr⟩ | ⟨c₂, hL, hbr⟩
        · cases a₂ with
          | nil =>
            rw [List.nil_append] at hbr
            injection hbr with h1 h2
            exact absurd h2 hne2
          | cons x a₂' =>
            rw [List.cons_append] at hbr
            injection hbr with h1 h2
            have hxm : x ∈ BUILD_TYPES_LIT ++ w' := by
              rw [hBTw]
              exact List.mem_append.mpr (Or.inr (List.mem_cons_self x a₂'))
            rw [← h1] at hxm
            rcases List.mem_append.mp hxm with h3 | h3
            · exact absurd h3 (by decide)
            · have hcontra := hws' _ h3
              rw [isWsJS_braceOpen] at hcontra
              cases hcontra
        · cases c₂ with
          | nil =>
            rw [List.nil_append] at hbr
            injection hbr with h1 h2
            exact absurd h2.symm hne2
          | cons x c₂' =>
            rw [List.cons_append] at hbr
            injection hbr with h1 h2
            simp at h2

/-- Step 2.2 applied a second time, after step 2.3, is the identity. -/
theorem step_signing_stable (c1 : List Char) :
    step_signing (step_release (step_signing c1)) =
      step_release (step_signing c1) := by
  by_cases hg : (occurs CREATE_RELEASE_TXT c1 && occurs KEYSTORE_PROPS_TXT c1) = true
  · have hg' := hg
    rw [Bool.and_eq_true] at hg'
    obtain ⟨hx, hy⟩ := hg'
    rw [step_signing_id hg]
    apply step_signing_id
    rw [Bool.and_eq_true]
    exact ⟨occurs_step_release (by decide) hx, occurs_step_release (by decide) hy⟩
  · cases hf : findLWB BUILD_TYPES_LIT c1 with
    | some tr =>
      obtain ⟨b, mm, aa⟩ := tr
      have hc2 : step_signing c1 = b ++ SIGNING_CONFIG_BLOCK ++ INDENT4 ++ mm ++ aa := by
        simp only [step_signing, if_neg hg, hf]
      have hcr2 : occurs CREATE_RELEASE_TXT (step_signing c1) = true := by
        rw [occurs_iff, hc2]
        exact occP_in_left (occP_in_left (occP_in_left
          (occP_in_right occP_CREATE_BLOCK b) INDENT4) mm) aa
      have hky2 : occurs KEYSTORE_PROPS_TXT (step_signing c1) = true := by
        rw [occurs_iff, hc2]
        exact occP_in_left (occP_in_left (occP_in_left
          (occP_in_right occP_KEYSTORE_BLOCK b) INDENT4) mm) aa
      apply step_signing_id
      rw [Bool.and_eq_true]
      exact ⟨occurs_step_release (by decide) hcr2,
             occurs_step_release (by decide) hky2⟩
    | none =>
      have hc2 : step_signing c1 = c1 := step_signing_id_nf hg hf
      rw [hc2]
      by_cases hg3 : (occurs CREATE_RELEASE_TXT (step_release c1) &&
          occurs KEYSTORE_PROPS_TXT (step_release c1)) = true
      · exact step_signing_id hg3
      · rcases step_release_cases c1 with he | ⟨b, mm, aa, w, hcdec, hmm, hws, he⟩
        · rw [he] at hg3 ⊢
          exact step_signing_id_nf hg3 hf
        · rw [he] at hg3 ⊢
          have hfind : findLWB BUILD_TYPES_LIT
              (b ++ mm ++ ('\n' :: RELEASE_CONFIG_LINE) ++ aa) = none := by
            have hshape : b ++ mm ++ ('\n' :: RELEASE_CONFIG_LINE) ++ aa =
                (b ++ mm) ++ (('\n' :: RELEASE_CONFIG_LINE) ++ aa) := by
              simp [List.append_assoc]
            rw [hshape]
            apply findBT_insert_none
              ⟨b ++ (GET_BY_NAME_LIT ++ w), by rw [hmm]; simp [List.append_assoc]⟩
            have hba : (b ++ mm) ++ aa = c1 := hcdec.symm
            rw [hba]
            exact hf
          exact step_signing_id_nf hg3 hfind

/-- C7: the Gradle text transform is idempotent — running the three patch
steps twice on any file content gives the same result as running them once
(no duplicate imports, signing block, or release-config line). -/
theorem claim_C7 (content : List Char) :
    gradleTransform (gradleTransform content) = gradleTransform content := by
  unfold gradleTransform
  have hI := step_imports_has content
  have hI1₃ : occurs IMPORT1
      (step_release (step_signing (step_imports content))) = true :=
    occurs_step_release (by decide) (occurs_step_signing (by decide) hI.1)
  have hI2₃ : occurs IMPORT2
      (step_release (step_signing (step_imports content))) = true :=
    occurs_step_release (by decide) (occurs_step_signing (by decide) hI.2)
  rw [step_imports_id hI1₃ hI2₃, step_signing_stable (step_imports content)]
  exact step_release_idem (step_signing (step_imports content))

/-- C8: the script exits with status 1 exactly when the target
`build.gradle.kts` is missing; a missing source `keystore.properties` only
produces a warning (the run continues and does not exit); and whether or
not the anchor-missing errors are reported, the final content is always the
full transform and the file is written exactly when the content changed. -/
theorem claim_C8 (ge ke cs : Bool) (content : List Char) :
    ((runMain ge ke cs content).exitCode = some 1 ↔ ge = false) ∧
    (ge = true →
      (runMain ge ke cs content).warnedMissingKeystore = !ke ∧
      (runMain ge ke cs content).exitCode = none) ∧
    (ge = true →
      (runMain ge ke cs content).finalContent = gradleTransform content ∧
      ((runMain ge ke cs content).wroteFile = true ↔
        gradleTransform content ≠ content)) := by
  cases ge with
  | false =>
    refine ⟨?_, ?_, ?_⟩
    · simp [runMain]
    · intro h; cases h
    · intro h; cases h
  | true =>
    refine ⟨?_, ?_, ?_⟩
    · simp [runMain]
    · intro _
      exact ⟨rfl, rfl⟩
    · intro _
      refine ⟨rfl, ?_⟩
      show decide (step_release (step_signing (step_imports content)) ≠ content) = true ↔ _
      rw [decide_eq_true_iff]
      rfl

/-- Witness for C8 at a present Gradle file, missing keystore, and a file
content consisting of a single character. -/
theorem claim_C8_witness :
    ((runMain true false true "x".data).warnedMissingKeystore = !false ∧
      (runMain true false true "x".data).exitCode = none) ∧
    ((runMain true false true "x".data).finalContent =
        gradleTransform "x".data ∧
      ((runMain true false true "x".data).wroteFile = true ↔
        gradleTransform "x".data ≠ "x".data)) :=
  ⟨(claim_C8 true false true "x".data).2.1 rfl,
   (claim_C8 true false true "x".data).2.2 rfl⟩
